import Mathlib

/-!
Verification development for the conversion-orchestration layer of a
browser-based video-to-MP4 converter.  The embedded code is the
`useConverter` hook: job store, per-job conversion procedure, progress
relay, sequential/parallel batch orchestration, cooperative cancellation,
and the id generator from `utils.ts`.

Numbers flowing through the progress relay are JavaScript numbers; they are
modelled as `Option ℚ` (`none` plays the role of NaN, which only arises
from a failed `parseInt`).  The transcoding engine is an external
collaborator; its interface (readiness, probe, virtual-file write, message
subscription, execution, file read) is modelled from the specification:
each engine instance carries a single message-handler slot which a
`subscribe`/`onMessage` call replaces, and the outcome of every external
call is supplied by an environment record.
-/

/-- JavaScript number as it occurs in the relay: `none` stands for NaN. -/
abbrev JNum : Type := Option ℚ

/-- Status of a job record: `pending → converting → {completed, error}`. -/
inductive Status
  | pending
  | converting
  | completed
  | error
deriving DecidableEq

/-- The immutable source payload of a job: declared name and byte size. -/
structure JSFile where
  name : String
  size : ℕ
deriving DecidableEq

/-- One job record of the store (`FileItem` in the source). -/
structure FileItem where
  id : String
  file : JSFile
  status : Status
  progress : JNum
  outputUrl : Option String
  outputSize : JNum
  conversionTime : Option ℚ
  error : Option String
deriving DecidableEq

/-- A `Partial<FileItem>` update object: `none` means the field is absent
from the update.  The `id` and `file` fields are never updated by any call
site of `updateFile`, so they are not part of the update object. -/
structure FileUpdates where
  status : Option Status := none
  progress : Option JNum := none
  outputUrl : Option (Option String) := none
  outputSize : Option JNum := none
  conversionTime : Option (Option ℚ) := none
  error : Option (Option String) := none

/-- The object spread `{ ...f, ...updates }`. -/
def applyUpdates (f : FileItem) (u : FileUpdates) : FileItem :=
  { f with
    status := u.status.getD f.status
    progress := u.progress.getD f.progress
    outputUrl := u.outputUrl.getD f.outputUrl
    outputSize := u.outputSize.getD f.outputSize
    conversionTime := u.conversionTime.getD f.conversionTime
    error := u.error.getD f.error }

/-- `updateFile` from the source: map over the store, replacing exactly the
records whose id matches. -/
def updateFile (jid : String) (u : FileUpdates) (files : List FileItem) : List FileItem :=
  files.map (fun f => if f.id = jid then applyUpdates f u else f)

/-- Generic form of a targeted store update; `updateFile jid u` is
`mapOn jid (applyUpdates · u)`. -/
def mapOn (jid : String) (g : FileItem → FileItem) (files : List FileItem) : List FileItem :=
  files.map (fun f => if f.id = jid then g f else f)

/-- First record with the given id, as the presentation layer would look a
job up. -/
def findItem (jid : String) (files : List FileItem) : Option FileItem :=
  files.find? (fun f => f.id = jid)

/-! ## The progress relay: `key=value` message parsing -/

/-- `msg.split("=")`: split a character list at every `'='`. -/
def splitOnEq : List Char → List (List Char)
  | [] => [[]]
  | c :: rest =>
    if c = '=' then [] :: splitOnEq rest
    else
      match splitOnEq rest with
      | [] => [[c]]
      | l :: ls => (c :: l) :: ls

/-- Whitespace skipped by JavaScript `parseInt`. -/
def isJsSpace (c : Char) : Bool :=
  c = ' ' ∨ c = '\t' ∨ c = '\n' ∨ c = '\r'

/-- Decimal value of a digit list (most significant first). -/
def digitsToNat (ds : List Char) : ℕ :=
  ds.foldl (fun a c => a * 10 + (c.toNat - 48)) 0

/-- Longest leading run of decimal digits, or NaN when there is none. -/
def parseDigits (cs : List Char) : JNum :=
  let ds := cs.takeWhile Char.isDigit
  if ds = [] then none else some (digitsToNat ds)

/-- JavaScript `parseInt` restricted to base 10: skip whitespace, optional
sign, then the longest digit prefix; NaN when no digit follows.  The
hexadecimal `0x` form is not modelled — engine progress values are decimal. -/
def parseIntL (cs : List Char) : JNum :=
  match cs.dropWhile isJsSpace with
  | '-' :: rest => (parseDigits rest).map (fun q => -q)
  | '+' :: rest => parseDigits rest
  | rest => parseDigits rest

/-- `Math.round`: round half toward positive infinity. -/
def jsRound (q : ℚ) : ℤ := (q + 1/2).floor

/-- `Math.round` on a JavaScript number (NaN propagates). -/
def jsRoundN : JNum → JNum
  | some q => some ((jsRound q : ℤ) : ℚ)
  | none => none

/-- Multiplication of JavaScript numbers (NaN propagates). -/
def jsMulN : JNum → JNum → JNum
  | some a, some b => some (a * b)
  | _, _ => none

/-- Division of JavaScript numbers.  Division by zero is conflated with
NaN; in the relay the divisor is a truthiness-checked duration times 10^6,
so this case cannot arise there. -/
def jsDivN : JNum → JNum → JNum
  | some a, some b => if b = 0 then none else some (a / b)
  | _, _ => none

/-- `Math.min(99, x)` (NaN propagates). -/
def jsMin99 : JNum → JNum
  | some q => some (min 99 q)
  | none => none

/-- Truthiness of `meta.duration`: `undefined`, NaN and `0` are falsy.
`undefined` and NaN are both represented by `none`. -/
def durationTruthy : Option ℚ → Bool
  | some d => d ≠ 0
  | none => false

def keyOutTime : List Char := "out_time_ms".data

def keySize : List Char := "total_size".data

/-- The progress expression
`Math.min(99, Math.round((parseInt(value) / (duration * 1e6)) * 100))`. -/
def ratioProgress (duration : Option ℚ) (value : List Char) : JNum :=
  jsMin99 (jsRoundN (jsMulN (jsDivN (parseIntL value) (jsMulN duration (some 1000000))) (some 100)))

/-- Update object `{ progress }` written by the relay. -/
def progressUpd (v : JNum) : FileUpdates := { progress := some v }

/-- Update object `{ outputSize }` written by the relay. -/
def sizeUpd (v : JNum) : FileUpdates := { outputSize := some v }

/-- The `onMessage` callback installed by `convertFile`: split the message
at `=`, and on `out_time_ms` (with a truthy duration) or `total_size`
update the subscribed job's record. -/
def onMessageCallback (jid : String) (duration : Option ℚ) (msg : String)
    (files : List FileItem) : List FileItem :=
  let parts := splitOnEq msg.data
  let ty := parts.headD []
  let value := (parts.drop 1).headD []
  let files1 :=
    if ty = keyOutTime ∧ durationTruthy duration = true then
      updateFile jid (progressUpd (ratioProgress duration value)) files
    else files
  if ty = keySize then
    updateFile jid (sizeUpd (parseIntL value)) files1
  else files1

/-! ## The engine collaborator -/

/-- A live subscription: which job installed the callback and the duration
it closed over. -/
structure Subscription where
  jobId : String
  duration : Option ℚ
deriving DecidableEq

/-- An engine instance.  Modelled from the spec: the external transcoding
engine exposes `subscribe(onEvent)`; each instance holds a single
message-handler slot which a subscribe call replaces, so a job's
subscription observes exactly the events of its own transcode call. -/
structure Engine where
  handler : Option Subscription
deriving DecidableEq

/-- Deliver one engine message to whatever callback is currently installed
on the engine. -/
def engineEmit (e : Engine) (msg : String) (files : List FileItem) : List FileItem :=
  match e.handler with
  | some sub => onMessageCallback sub.jobId sub.duration msg files
  | none => files

/-- A thrown JavaScript value: `some m` is an `Error` with message `m`,
`none` a non-`Error` throw. -/
abbrev JSError : Type := Option String

/-- `error instanceof Error ? error.message : "Conversion failed"`. -/
def errMessage : JSError → String
  | some m => m
  | none => "Conversion failed"

/-- Outcomes of the external calls made during one job's conversion:
payload read, duration probe, virtual-file write, the messages emitted
while the transcode executes and its outcome, the output read, the object
URL for the output, and the elapsed wall-clock time. -/
structure JobEnv where
  readPayload : Except JSError (List ℕ)
  metaDuration : Except JSError (Option ℚ)
  writeResult : Except JSError Unit
  execMessages : List String
  execResult : Except JSError Unit
  readResult : Except JSError (List ℕ)
  outputUrlVal : String
  elapsed : ℚ

/-- Environment in which every external call succeeds trivially. -/
def defaultEnv : JobEnv :=
  { readPayload := .ok []
    metaDuration := .ok none
    writeResult := .ok ()
    execMessages := []
    execResult := .ok ()
    readResult := .ok []
    outputUrlVal := ""
    elapsed := 0 }

/-- `name.replace(/\.[^/.]+$/, "")`: drop the final extension when the part
after the last dot is nonempty and slash-free. -/
def stripExtension (name : String) : String :=
  let cs := name.data
  let tl := (cs.reverse.takeWhile (fun c => ¬ (c = '.' ∨ c = '/'))).reverse
  if tl.length + 1 ≤ cs.length ∧ cs.getD (cs.length - tl.length - 1) ' ' = '.' ∧ tl ≠ [] then
    String.mk (cs.take (cs.length - tl.length - 1))
  else name

/-- Update `{ status: "converting", progress: 0 }`. -/
def convertingUpd : FileUpdates :=
  { status := some .converting, progress := some (some 0) }

/-- Terminal-success update: status completed, progress exactly 100, the
output artifact, and the rounded elapsed time. -/
def completedUpd (url : String) (elapsed : ℚ) : FileUpdates :=
  { status := some .completed
    progress := some (some 100)
    outputUrl := some (some url)
    conversionTime := some (some ((jsRound elapsed : ℤ) : ℚ)) }

/-- Failure update from the catch block: status and message only. -/
def failUpd (msg : String) : FileUpdates :=
  { status := some .error, error := some (some msg) }

/-- The `try` block of `convertFile`, started after the job was marked
converting: payload read, probe, filename choice, virtual-file write,
`onMessage` subscription (replacing the engine's handler), transcode
execution with its event stream delivered through the engine's current
handler, output read, and the terminal-success update.  An error result
carries the thrown value together with the store and engine exactly as
they were at the point of failure. -/
def convertAttempt (item : FileItem) (useShared : Bool) (env : JobEnv)
    (files : List FileItem) (eng : Engine) :
    Except (JSError × List FileItem × Engine) (List FileItem × Engine) :=
  match env.readPayload with
  | .error e => .error (e, files, eng)
  | .ok _inputData =>
    match env.metaDuration with
    | .error e => .error (e, files, eng)
    | .ok duration =>
      let uniqueNamePart := if useShared then "" else item.id ++ "_"
      let inputFileName := uniqueNamePart ++ item.file.name
      let outputFileName := uniqueNamePart ++ stripExtension item.file.name ++ ".mp4"
      match env.writeResult with
      | .error e => .error (e, files, eng)
      | .ok _ =>
        let eng2 : Engine := { handler := some { jobId := item.id, duration := duration } }
        let files2 := env.execMessages.foldl (fun fs msg => engineEmit eng2 msg fs) files
        match env.execResult with
        | .error e => .error (e, files2, eng2)
        | .ok _ =>
          match env.readResult with
          | .error e => .error (e, files2, eng2)
          | .ok _data =>
            let _ := inputFileName
            let _ := outputFileName
            .ok (updateFile item.id (completedUpd env.outputUrlVal env.elapsed) files2, eng2)

/-! ## The converter state and its operations -/

/-- State of the `useConverter` hook: the job store, the cooperative
cancellation/busy flag `processingRef`, the `isProcessing` state exposed to
the UI, and the shared engine reference (absent before initialization). -/
structure ConverterState where
  files : List FileItem
  processingRef : Bool
  isProcessing : Bool
  sharedEngine : Option Engine
deriving DecidableEq

/-- The body of `convertFile` once an engine is in hand: mark converting,
run the `try` block, and on a throw apply the catch's failure update to the
store as it was at the point of failure. -/
def convertWith (st : ConverterState) (item : FileItem) (useShared : Bool)
    (env : JobEnv) (eng : Engine) : ConverterState × Engine :=
  let files := updateFile item.id convertingUpd st.files
  match convertAttempt item useShared env files eng with
  | .ok (fs, e2) => ({ st with files := fs }, e2)
  | .error (err, fs, e2) =>
    ({ st with files := updateFile item.id (failUpd (errMessage err)) fs }, e2)

/-- Per-job conversion procedure.  In shared mode a missing engine
reference is a silent no-op return; otherwise the shared engine is used and
written back.  In parallel mode a fresh engine is created, awaited for
readiness and discarded afterwards. -/
def convertFile (st : ConverterState) (item : FileItem) (useShared : Bool)
    (env : JobEnv) : ConverterState :=
  match useShared, st.sharedEngine with
  | true, none => st
  | true, some eng =>
    let r := convertWith st item true env eng
    { r.1 with sharedEngine := some r.2 }
  | false, _ => (convertWith st item false env (Engine.mk none)).1

/-- `stopConversion`: clear the cancellation flag and report idle. -/
def stopConversion (st : ConverterState) : ConverterState :=
  { st with processingRef := false, isProcessing := false }

/-- One scheduling step of a sequential batch: whether `stopConversion` was
invoked before this job's cancellation check, and the environment of this
job's external calls. -/
structure SeqStep where
  stopBefore : Bool
  env : JobEnv

def defaultStep : SeqStep := { stopBefore := false, env := defaultEnv }

/-- The sequential loop: before each job apply a pending `stopConversion`
request, check the cancellation flag (break when cleared), then convert the
job fully on the shared engine. -/
def runSequential (st : ConverterState) (jobs : List FileItem)
    (sched : List SeqStep) : ConverterState :=
  match jobs with
  | [] => st
  | item :: rest =>
    let step := sched.headD defaultStep
    let st1 := if step.stopBefore then stopConversion st else st
    if st1.processingRef = false then st1
    else runSequential (convertFile st1 item true step.env) rest sched.tail

/-- The parallel branch: every pending job converted on its own dedicated
engine.  All store updates are targeted at distinct job ids, so the
single-threaded interleaving of the concurrent procedures is modelled by
running them in snapshot order. -/
def runParallel (st : ConverterState) (jobs : List FileItem)
    (envs : List JobEnv) : ConverterState :=
  match jobs with
  | [] => st
  | item :: rest =>
    runParallel (convertFile st item false (envs.headD defaultEnv)) rest envs.tail

inductive ProcessingMode
  | sequential
  | parallel
deriving DecidableEq

/-- Jobs selected by a batch run: the records currently pending. -/
def pendingOf (st : ConverterState) : List FileItem :=
  st.files.filter (fun f => f.status = Status.pending)

/-- `startConversion`: no-op while the busy flag is set; otherwise set the
flags, snapshot the pending jobs, run them in the selected mode, and clear
the flags. -/
def startConversion (st : ConverterState) (mode : ProcessingMode)
    (sched : List SeqStep) : ConverterState :=
  if st.processingRef = true then st
  else
    let st1 := { st with processingRef := true, isProcessing := true }
    let pendingFiles := st1.files.filter (fun f => f.status = Status.pending)
    let st2 :=
      match mode with
      | .sequential => runSequential st1 pendingFiles sched
      | .parallel => runParallel st1 pendingFiles (sched.map SeqStep.env)
    { st2 with processingRef := false, isProcessing := false }

/-! ## Id generation and store-level operations -/

/-- Decimal digit characters. -/
def decDigitChar (n : ℕ) : Char :=
  if n = 0 then '0' else if n = 1 then '1' else if n = 2 then '2'
  else if n = 3 then '3' else if n = 4 then '4' else if n = 5 then '5'
  else if n = 6 then '6' else if n = 7 then '7' else if n = 8 then '8' else '9'

/-- Fuelled decimal rendering, least significant digit pushed first. -/
def natToDecAux : ℕ → ℕ → List Char → List Char
  | 0, _, acc => acc
  | fuel + 1, n, acc =>
    let acc2 := decDigitChar (n % 10) :: acc
    if n < 10 then acc2 else natToDecAux fuel (n / 10) acc2

/-- Decimal rendering of a natural number, as `${Date.now()}` renders the
timestamp. -/
def natToDec (n : ℕ) : List Char := natToDecAux (n + 1) n []

/-- `generateId` from `utils.ts`: the current timestamp and a random
base-36 suffix joined by a dash.  The timestamp and the suffix are oracle
inputs of the model. -/
def generateId (now : ℕ) (rand : String) : String :=
  String.mk (natToDec now) ++ "-" ++ rand

/-- One oracle draw of `generateId`: the `Date.now()` value and the random
suffix. -/
structure IdDraw where
  now : ℕ
  rand : String
deriving DecidableEq

/-- A fresh pending record as `addFiles` builds it. -/
def newFileItem (draw : IdDraw) (file : JSFile) : FileItem :=
  { id := generateId draw.now draw.rand
    file := file
    status := .pending
    progress := some 0
    outputUrl := none
    outputSize := some 0
    conversionTime := none
    error := none }

/-- `addFiles`: append freshly created pending records. -/
def addFiles (newFiles : List (IdDraw × JSFile)) (files : List FileItem) : List FileItem :=
  files ++ newFiles.map (fun p => newFileItem p.1 p.2)

/-- `removeFile`: drop the record with the given id.  (The revocation of
its object URL is an external effect with no bearing on the store.) -/
def removeFile (jid : String) (files : List FileItem) : List FileItem :=
  files.filter (fun f => ¬ (f.id = jid))

/-- A store operation of the store's lifetime. -/
inductive StoreOp
  | add (batch : List (IdDraw × JSFile))
  | remove (jid : String)

def applyOp (files : List FileItem) : StoreOp → List FileItem
  | .add batch => addFiles batch files
  | .remove jid => removeFile jid files

def runOps (ops : List StoreOp) (files : List FileItem) : List FileItem :=
  ops.foldl applyOp files

/-- All oracle draws consumed over a sequence of store operations. -/
def drawsOf (ops : List StoreOp) : List IdDraw :=
  ops.foldr
    (fun op acc =>
      match op with
      | .add batch => batch.map Prod.fst ++ acc
      | .remove _ => acc)
    []

/-- All identifiers ever created over a sequence of store operations. -/
def idsCreated (ops : List StoreOp) : List String :=
  (drawsOf ops).map (fun d => generateId d.now d.rand)

/-- Placeholder record used by positional `getD` access in statements. -/
def blankItem : FileItem :=
  { id := ""
    file := { name := "", size := 0 }
    status := .pending
    progress := some 0
    outputUrl := none
    outputSize := some 0
    conversionTime := none
    error := none }

/-! ## Derived per-record semantics

`convertFile` touches the store only through targeted updates at the id of
the job it runs; the following definitions spell out its action on that
single record.  They are related to `convertFile` by the theorem
`convertFile_files_eq` below. -/

/-- Action of the `onMessage` callback on the subscribed record itself. -/
def handlerRec (duration : Option ℚ) (msg : String) (f : FileItem) : FileItem :=
  let parts := splitOnEq msg.data
  let ty := parts.headD []
  let value := (parts.drop 1).headD []
  let f1 :=
    if ty = keyOutTime ∧ durationTruthy duration = true then
      applyUpdates f (progressUpd (ratioProgress duration value))
    else f
  if ty = keySize then
    applyUpdates f1 (sizeUpd (parseIntL value))
  else f1

/-- Action of one whole `convertFile` run (engine in hand) on the record of
the job being converted: mark converting, then either fail at the step the
environment fails at, or deliver the event stream and complete. -/
def recResult (env : JobEnv) (f0 : FileItem) : FileItem :=
  let f := applyUpdates f0 convertingUpd
  match env.readPayload with
  | .error e => applyUpdates f (failUpd (errMessage e))
  | .ok _ =>
    match env.metaDuration with
    | .error e => applyUpdates f (failUpd (errMessage e))
    | .ok duration =>
      match env.writeResult with
      | .error e => applyUpdates f (failUpd (errMessage e))
      | .ok _ =>
        let f2 := env.execMessages.foldl (fun f msg => handlerRec duration msg f) f
        match env.execResult with
        | .error e => applyUpdates f2 (failUpd (errMessage e))
        | .ok _ =>
          match env.readResult with
          | .error e => applyUpdates f2 (failUpd (errMessage e))
          | .ok _ => applyUpdates f2 (completedUpd env.outputUrlVal env.elapsed)

/-! ## Concrete scenario inputs for witnesses and counterexamples -/

/-- Job record `a.mov`, pending. -/
def recA : FileItem := { blankItem with id := "idA", file := { name := "a.mov", size := 5242880 } }

/-- Job record `b.avi`, pending. -/
def recB : FileItem := { blankItem with id := "idB", file := { name := "b.avi", size := 2097152 } }

/-- A third pending job record. -/
def recC : FileItem := { blankItem with id := "idC", file := { name := "c.mkv", size := 1048576 } }

/-- An idle converter state with all three jobs pending and the shared
engine initialized. -/
def stABC : ConverterState :=
  { files := [recA, recB, recC]
    processingRef := false
    isProcessing := false
    sharedEngine := some { handler := none } }

/-- Environment of a fully successful conversion with a probed duration of
one second and the spec's example event stream. -/
def envDone : JobEnv :=
  { defaultEnv with
    metaDuration := .ok (some 1)
    execMessages := ["out_time_ms=500000", "total_size=1048576"]
    outputUrlVal := "blob:out"
    elapsed := 1500 }

/-- Environment whose transcode execution throws. -/
def envExecFail : JobEnv :=
  { defaultEnv with
    metaDuration := .ok (some 1)
    execResult := .error (some "exec failed") }

/-- Environment whose duration probe throws. -/
def envProbeThrow : JobEnv :=
  { defaultEnv with metaDuration := .error (some "probe failed") }

/-- Environment whose probe resolves but yields no duration, everything
else succeeding. -/
def envNoDur : JobEnv :=
  { defaultEnv with
    metaDuration := .ok none
    execMessages := ["out_time_ms=500000", "total_size=777"]
    outputUrlVal := "blob:nodur" }

/-- The state reached by a sequential batch over `stABC` that has marked
`recA` converting and is suspended inside `recA`'s procedure, after
`stopConversion` was invoked during that suspension: the busy flag is
cleared while `recA` has not reached a terminal state. -/
def stMidStop : ConverterState :=
  stopConversion
    { files := updateFile "idA" convertingUpd stABC.files
      processingRef := true
      isProcessing := true
      sharedEngine := some { handler := none } }

/-- A busy converter state holding only `recA`, shared engine ready. -/
def stSoloA : ConverterState :=
  { files := [recA]
    processingRef := true
    isProcessing := true
    sharedEngine := some { handler := none } }

/-! ## Store-update lemmas -/

theorem applyUpdates_id (f : FileItem) (u : FileUpdates) : (applyUpdates f u).id = f.id := rfl

theorem applyUpdates_file (f : FileItem) (u : FileUpdates) : (applyUpdates f u).file = f.file := rfl

theorem updateFile_eq_mapOn (jid : String) (u : FileUpdates) (files : List FileItem) :
    updateFile jid u files = mapOn jid (fun f => applyUpdates f u) files := rfl

theorem mapOn_nil (jid : String) (g : FileItem → FileItem) : mapOn jid g [] = [] := rfl

theorem mapOn_cons (jid : String) (g : FileItem → FileItem) (f : FileItem) (t : List FileItem) :
    mapOn jid g (f :: t) = (if f.id = jid then g f else f) :: mapOn jid g t := rfl

theorem mapOn_length (jid : String) (g : FileItem → FileItem) (files : List FileItem) :
    (mapOn jid g files).length = files.length := by
  simp [mapOn]

theorem mapOn_identity (jid : String) (files : List FileItem) :
    mapOn jid (fun f => f) files = files := by
  induction files with
  | nil => rfl
  | cons f t ih => rw [mapOn_cons, ih, ite_self]

theorem mapOn_mapOn (jid : String) (g1 g2 : FileItem → FileItem) (files : List FileItem)
    (h : ∀ f, (g1 f).id = f.id) :
    mapOn jid g2 (mapOn jid g1 files) = mapOn jid (fun f => g2 (g1 f)) files := by
  induction files with
  | nil => rfl
  | cons f t ih =>
    rw [mapOn_cons, mapOn_cons, mapOn_cons, ih]
    by_cases hf : f.id = jid
    · rw [if_pos hf, if_pos hf, if_pos]
      rw [h f, hf]
    · rw [if_neg hf, if_neg hf, if_neg hf]

theorem mapOn_congr (jid : String) (g1 g2 : FileItem → FileItem) (files : List FileItem)
    (h : ∀ f, g1 f = g2 f) :
    mapOn jid g1 files = mapOn jid g2 files := by
  induction files with
  | nil => rfl
  | cons f t ih =>
    rw [mapOn_cons, mapOn_cons, ih, h f]

theorem mapOn_of_forall_ne (jid : String) (g : FileItem → FileItem) (files : List FileItem)
    (h : ∀ f ∈ files, ¬ f.id = jid) :
    mapOn jid g files = files := by
  induction files with
  | nil => rfl
  | cons f t ih =>
    rw [mapOn_cons, if_neg (h f (List.mem_cons_self f t)),
      ih (fun f hf => h f (List.mem_cons_of_mem _ hf))]

theorem mapOn_getD (jid : String) (g : FileItem → FileItem) (files : List FileItem) (k : ℕ) :
    (mapOn jid g files).getD k blankItem
      = (if (files.getD k blankItem).id = jid ∧ k < files.length
          then g (files.getD k blankItem) else files.getD k blankItem) := by
  induction files generalizing k with
  | nil =>
    simp [mapOn]
  | cons f t ih =>
    rw [mapOn_cons]
    cases k with
    | zero =>
      by_cases hf : f.id = jid
      · simp [hf]
      · simp [hf]
    | succ k =>
      simp only [List.getD_cons_succ, List.length_cons, ih]
      exact if_congr (and_congr Iff.rfl (by omega)) rfl rfl

theorem findItem_nil (jid : String) : findItem jid [] = none := rfl

theorem findItem_cons (jid : String) (f : FileItem) (t : List FileItem) :
    findItem jid (f :: t) = if f.id = jid then some f else findItem jid t := by
  by_cases h : f.id = jid
  · rw [if_pos h]
    unfold findItem
    exact List.find?_cons_of_pos _ (by simpa using h)
  · rw [if_neg h]
    unfold findItem
    exact List.find?_cons_of_neg _ (by simpa using h)

theorem findItem_mapOn_ne (jid aid : String) (g : FileItem → FileItem)
    (files : List FileItem) (hg : ∀ f, (g f).id = f.id) (h : ¬ aid = jid) :
    findItem aid (mapOn jid g files) = findItem aid files := by
  induction files with
  | nil => rfl
  | cons f t ih =>
    rw [mapOn_cons]
    by_cases hf : f.id = jid
    · have hne : ¬ f.id = aid := fun hc => h (by rw [← hc, hf])
      rw [if_pos hf, findItem_cons, findItem_cons, ih, hg f, if_neg hne, if_neg hne]
    · rw [if_neg hf, findItem_cons, findItem_cons, ih]

theorem findItem_mapOn_eq (jid : String) (g : FileItem → FileItem)
    (files : List FileItem) (hg : ∀ f, (g f).id = f.id) :
    findItem jid (mapOn jid g files) = (findItem jid files).map g := by
  induction files with
  | nil => rfl
  | cons f t ih =>
    rw [mapOn_cons]
    by_cases hf : f.id = jid
    · rw [if_pos hf, findItem_cons, findItem_cons, hg f, if_pos hf, if_pos hf]
      rfl
    · rw [if_neg hf, findItem_cons, findItem_cons, if_neg hf, if_neg hf, ih]

theorem findItem_of_nodup (files : List FileItem)
    (hnd : (files.map (fun f => f.id)).Nodup) (f : FileItem) (hf : f ∈ files) :
    findItem f.id files = some f := by
  induction files with
  | nil => cases hf
  | cons a t ih =>
    rw [findItem_cons]
    rw [List.map_cons, List.nodup_cons] at hnd
    rcases List.mem_cons.mp hf with rfl | hft
    · rw [if_pos rfl]
    · by_cases ha : a.id = f.id
      · exact absurd (ha ▸ List.mem_map_of_mem (fun f => f.id) hft) hnd.1
      · rw [if_neg ha]
        exact ih hnd.2 hft

/-! ## Relay-callback lemmas -/

theorem handlerRec_id (duration : Option ℚ) (msg : String) (f : FileItem) :
    (handlerRec duration msg f).id = f.id := by
  unfold handlerRec
  dsimp only
  split
  · split
    · rfl
    · rfl
  · split
    · rfl
    · rfl

theorem onMessageCallback_eq_mapOn (jid : String) (duration : Option ℚ) (msg : String)
    (files : List FileItem) :
    onMessageCallback jid duration msg files = mapOn jid (handlerRec duration msg) files := by
  unfold onMessageCallback handlerRec
  dsimp only
  by_cases h1 : (splitOnEq msg.data).headD [] = keyOutTime ∧ durationTruthy duration = true
  · by_cases h2 : (splitOnEq msg.data).headD [] = keySize
    · simp only [if_pos h1, if_pos h2, updateFile_eq_mapOn]
      rw [mapOn_mapOn _ _ _ _ (fun f => applyUpdates_id f _)]
    · simp only [if_pos h1, if_neg h2, updateFile_eq_mapOn]
  · by_cases h2 : (splitOnEq msg.data).headD [] = keySize
    · simp only [if_neg h1, if_pos h2, updateFile_eq_mapOn]
    · simp only [if_neg h1, if_neg h2]
      rw [mapOn_identity]

theorem foldl_mapOn (jid : String) (h : String → FileItem → FileItem)
    (msgs : List String) (files : List FileItem)
    (hid : ∀ m f, (h m f).id = f.id) :
    msgs.foldl (fun fs m => mapOn jid (h m) fs) files
      = mapOn jid (fun f => msgs.foldl (fun f m => h m f) f) files := by
  induction msgs generalizing files with
  | nil => exact (mapOn_identity jid files).symm
  | cons m ms ih =>
    rw [List.foldl_cons, ih, mapOn_mapOn _ _ _ _ (hid m)]
    exact mapOn_congr _ _ _ _ (fun f => by rw [List.foldl_cons])

theorem foldl_handlerRec_id (d : Option ℚ) (msgs : List String) (f : FileItem) :
    (msgs.foldl (fun f m => handlerRec d m f) f).id = f.id := by
  induction msgs generalizing f with
  | nil => rfl
  | cons m ms ih => rw [List.foldl_cons, ih, handlerRec_id]

theorem foldl_engineEmit (jid : String) (d : Option ℚ) (msgs : List String)
    (files : List FileItem) :
    msgs.foldl
      (fun fs msg => engineEmit { handler := some { jobId := jid, duration := d } } msg fs) files
      = mapOn jid (fun f => msgs.foldl (fun f m => handlerRec d m f) f) files := by
  have h : (fun (fs : List FileItem) (msg : String) =>
        engineEmit { handler := some { jobId := jid, duration := d } } msg fs)
      = fun fs msg => mapOn jid (handlerRec d msg) fs := by
    funext fs msg
    exact onMessageCallback_eq_mapOn jid d msg fs
  rw [h, foldl_mapOn _ _ _ _ (fun m f => handlerRec_id d m f)]

theorem recResult_id (env : JobEnv) (f : FileItem) : (recResult env f).id = f.id := by
  rcases env with ⟨rp, md, wr, xm, xr, rr, url, el⟩
  cases rp with
  | error e => rfl
  | ok pd =>
    cases md with
    | error e => rfl
    | ok d =>
      cases wr with
      | error e => rfl
      | ok u =>
        cases xr with
        | error e =>
          show (applyUpdates (xm.foldl (fun f m => handlerRec d m f) _) _).id = f.id
          rw [applyUpdates_id, foldl_handlerRec_id, applyUpdates_id]
        | ok u2 =>
          cases rr with
          | error e =>
            show (applyUpdates (xm.foldl (fun f m => handlerRec d m f) _) _).id = f.id
            rw [applyUpdates_id, foldl_handlerRec_id, applyUpdates_id]
          | ok dat =>
            show (applyUpdates (xm.foldl (fun f m => handlerRec d m f) _) _).id = f.id
            rw [applyUpdates_id, foldl_handlerRec_id, applyUpdates_id]

theorem convertWith_files_eq (st : ConverterState) (item : FileItem) (useShared : Bool)
    (env : JobEnv) (eng : Engine) :
    (convertWith st item useShared env eng).1.files = mapOn item.id (recResult env) st.files := by
  rcases env with ⟨rp, md, wr, xm, xr, rr, url, el⟩
  cases rp with
  | error e =>
    dsimp only [convertWith, convertAttempt]
    rw [updateFile_eq_mapOn, updateFile_eq_mapOn,
      mapOn_mapOn _ _ _ _ (fun f => applyUpdates_id f _)]
    rfl
  | ok pd =>
    cases md with
    | error e =>
      dsimp only [convertWith, convertAttempt]
      rw [updateFile_eq_mapOn, updateFile_eq_mapOn,
        mapOn_mapOn _ _ _ _ (fun f => applyUpdates_id f _)]
      rfl
    | ok d =>
      cases wr with
      | error e =>
        dsimp only [convertWith, convertAttempt]
        rw [updateFile_eq_mapOn, updateFile_eq_mapOn,
          mapOn_mapOn _ _ _ _ (fun f => applyUpdates_id f _)]
        rfl
      | ok u =>
        cases xr with
        | error e =>
          dsimp only [convertWith, convertAttempt]
          rw [foldl_engineEmit, updateFile_eq_mapOn, updateFile_eq_mapOn,
            mapOn_mapOn _ _ _ _ (fun f => applyUpdates_id f _),
            mapOn_mapOn _ _ _ _
              (fun f => by rw [foldl_handlerRec_id, applyUpdates_id])]
          rfl
        | ok u2 =>
          cases rr with
          | error e =>
            dsimp only [convertWith, convertAttempt]
            rw [foldl_engineEmit, updateFile_eq_mapOn, updateFile_eq_mapOn,
              mapOn_mapOn _ _ _ _ (fun f => applyUpdates_id f _),
              mapOn_mapOn _ _ _ _
                (fun f => by rw [foldl_handlerRec_id, applyUpdates_id])]
            rfl
          | ok dat =>
            dsimp only [convertWith, convertAttempt]
            rw [foldl_engineEmit, updateFile_eq_mapOn, updateFile_eq_mapOn,
              mapOn_mapOn _ _ _ _ (fun f => applyUpdates_id f _),
              mapOn_mapOn _ _ _ _
                (fun f => by rw [foldl_handlerRec_id, applyUpdates_id])]
            rfl

theorem convertWith_processingRef (st : ConverterState) (item : FileItem) (useShared : Bool)
    (env : JobEnv) (eng : Engine) :
    (convertWith st item useShared env eng).1.processingRef = st.processingRef := by
  cases h : convertAttempt item useShared env (updateFile item.id convertingUpd st.files) eng with
  | ok p =>
    rcases p with ⟨fs, e2⟩
    simp [convertWith, h]
  | error q =>
    rcases q with ⟨err, fs, e2⟩
    simp [convertWith, h]

theorem convertWith_isProcessing (st : ConverterState) (item : FileItem) (useShared : Bool)
    (env : JobEnv) (eng : Engine) :
    (convertWith st item useShared env eng).1.isProcessing = st.isProcessing := by
  cases h : convertAttempt item useShared env (updateFile item.id convertingUpd st.files) eng with
  | ok p =>
    rcases p with ⟨fs, e2⟩
    simp [convertWith, h]
  | error q =>
    rcases q with ⟨err, fs, e2⟩
    simp [convertWith, h]

theorem convertWith_sharedEngine (st : ConverterState) (item : FileItem) (useShared : Bool)
    (env : JobEnv) (eng : Engine) :
    (convertWith st item useShared env eng).1.sharedEngine = st.sharedEngine := by
  cases h : convertAttempt item useShared env (updateFile item.id convertingUpd st.files) eng with
  | ok p =>
    rcases p with ⟨fs, e2⟩
    simp [convertWith, h]
  | error q =>
    rcases q with ⟨err, fs, e2⟩
    simp [convertWith, h]

theorem convertFile_files_eq (st : ConverterState) (item : FileItem) (env : JobEnv)
    (eng : Engine) (h : st.sharedEngine = some eng) :
    (convertFile st item true env).files = mapOn item.id (recResult env) st.files := by
  unfold convertFile
  rw [h]
  exact convertWith_files_eq st item true env eng

theorem convertFile_par_files_eq (st : ConverterState) (item : FileItem) (env : JobEnv) :
    (convertFile st item false env).files = mapOn item.id (recResult env) st.files := by
  unfold convertFile
  exact convertWith_files_eq st item false env (Engine.mk none)

theorem convertFile_none_eq (st : ConverterState) (item : FileItem) (env : JobEnv)
    (h : st.sharedEngine = none) : convertFile st item true env = st := by
  unfold convertFile
  rw [h]

theorem convertFile_sharedEngine_isSome (st : ConverterState) (item : FileItem) (env : JobEnv) :
    (convertFile st item true env).sharedEngine.isSome = st.sharedEngine.isSome := by
  cases h : st.sharedEngine with
  | none => rw [convertFile_none_eq st item env h, h]
  | some eng => simp [convertFile, h]

theorem convertFile_par_sharedEngine (st : ConverterState) (item : FileItem) (env : JobEnv) :
    (convertFile st item false env).sharedEngine = st.sharedEngine := by
  unfold convertFile
  exact convertWith_sharedEngine st item false env (Engine.mk none)

theorem convertFile_processingRef (st : ConverterState) (item : FileItem) (useShared : Bool)
    (env : JobEnv) :
    (convertFile st item useShared env).processingRef = st.processingRef := by
  cases useShared with
  | true =>
    cases h : st.sharedEngine with
    | none => rw [convertFile_none_eq st item env h]
    | some eng =>
      simp only [convertFile, h]
      exact convertWith_processingRef st item true env eng
  | false => exact convertWith_processingRef st item false env (Engine.mk none)

theorem convertFile_isProcessing (st : ConverterState) (item : FileItem) (useShared : Bool)
    (env : JobEnv) :
    (convertFile st item useShared env).isProcessing = st.isProcessing := by
  cases useShared with
  | true =>
    cases h : st.sharedEngine with
    | none => rw [convertFile_none_eq st item env h]
    | some eng =>
      simp only [convertFile, h]
      exact convertWith_isProcessing st item true env eng
  | false => exact convertWith_isProcessing st item false env (Engine.mk none)

theorem convertFile_findItem_ne (st : ConverterState) (item : FileItem) (useShared : Bool)
    (env : JobEnv) (aid : String) (h : ¬ aid = item.id) :
    findItem aid (convertFile st item useShared env).files = findItem aid st.files := by
  cases useShared with
  | true =>
    cases he : st.sharedEngine with
    | none => rw [convertFile_none_eq st item env he]
    | some eng =>
      rw [convertFile_files_eq st item env eng he,
        findItem_mapOn_ne _ _ _ _ (recResult_id env) h]
  | false =>
    rw [convertFile_par_files_eq st item env,
      findItem_mapOn_ne _ _ _ _ (recResult_id env) h]

theorem convertFile_findItem_eq (st : ConverterState) (item : FileItem) (env : JobEnv)
    (eng : Engine) (h : st.sharedEngine = some eng) :
    findItem item.id (convertFile st item true env).files
      = (findItem item.id st.files).map (recResult env) := by
  rw [convertFile_files_eq st item env eng h,
    findItem_mapOn_eq _ _ _ (recResult_id env)]

theorem convertFile_par_findItem_eq (st : ConverterState) (item : FileItem) (env : JobEnv) :
    findItem item.id (convertFile st item false env).files
      = (findItem item.id st.files).map (recResult env) := by
  rw [convertFile_par_files_eq st item env,
    findItem_mapOn_eq _ _ _ (recResult_id env)]

/-! ## Batch-run lemmas -/

theorem stopConversion_files (st : ConverterState) : (stopConversion st).files = st.files := rfl

theorem getD_zero_eq_headD {α : Type} (l : List α) (d : α) : l.getD 0 d = l.headD d := by
  cases l <;> rfl

theorem getD_tail_eq {α : Type} (l : List α) (k : ℕ) (d : α) :
    l.tail.getD k d = l.getD (k + 1) d := by
  cases l <;> rfl

theorem getD_mem {α : Type} (l : List α) (k : ℕ) (d : α) (h : k < l.length) :
    l.getD k d ∈ l := by
  induction l generalizing k with
  | nil => exact absurd h (Nat.not_lt_zero k)
  | cons a t ih =>
    cases k with
    | zero => exact List.mem_cons_self a t
    | succ k =>
      exact List.mem_cons_of_mem a (ih k (Nat.lt_of_succ_lt_succ h))

theorem head_id_not_mem_rest (item : FileItem) (rest : List FileItem)
    (hnd : ((item :: rest).map (fun f => f.id)).Nodup) :
    ∀ f ∈ rest, ¬ item.id = f.id := by
  intro f hf hc
  rw [List.map_cons, List.nodup_cons] at hnd
  exact hnd.1 (hc ▸ List.mem_map_of_mem (fun f => f.id) hf)

theorem runSequential_findItem_frame (jobs : List FileItem) (sched : List SeqStep)
    (st : ConverterState) (aid : String) (h : ∀ f ∈ jobs, ¬ aid = f.id) :
    findItem aid (runSequential st jobs sched).files = findItem aid st.files := by
  induction jobs generalizing st sched with
  | nil => rfl
  | cons item rest ih =>
    have hrest : ∀ f ∈ rest, ¬ aid = f.id := fun f hf => h f (List.mem_cons_of_mem _ hf)
    have hitem : ¬ aid = item.id := h item (List.mem_cons_self item rest)
    cases hs : (sched.headD defaultStep).stopBefore with
    | false =>
      simp only [runSequential, hs, Bool.false_eq_true, if_false]
      by_cases hp : st.processingRef = false
      · simp only [if_pos hp]
      · simp only [if_neg hp]
        rw [ih _ _ hrest, convertFile_findItem_ne _ _ _ _ _ hitem]
    | true =>
      simp only [runSequential, hs, if_true]
      have hp : (stopConversion st).processingRef = false := rfl
      simp only [if_pos hp]
      rfl

theorem runParallel_findItem_frame (jobs : List FileItem) (envs : List JobEnv)
    (st : ConverterState) (aid : String) (h : ∀ f ∈ jobs, ¬ aid = f.id) :
    findItem aid (runParallel st jobs envs).files = findItem aid st.files := by
  induction jobs generalizing st envs with
  | nil => rfl
  | cons item rest ih =>
    have hrest : ∀ f ∈ rest, ¬ aid = f.id := fun f hf => h f (List.mem_cons_of_mem _ hf)
    have hitem : ¬ aid = item.id := h item (List.mem_cons_self item rest)
    simp only [runParallel]
    rw [ih _ _ hrest, convertFile_findItem_ne _ _ _ _ _ hitem]

theorem convertFile_step_facts (st : ConverterState) (item : FileItem) (env : JobEnv)
    (hpref : st.processingRef = true) (heng : st.sharedEngine.isSome = true) :
    (convertFile st item true env).processingRef = true
      ∧ (convertFile st item true env).sharedEngine.isSome = true := by
  rw [convertFile_processingRef, convertFile_sharedEngine_isSome]
  exact ⟨hpref, heng⟩

theorem findItem_pres_rest (st : ConverterState) (item : FileItem) (env : JobEnv)
    (rest : List FileItem) (hnd : ((item :: rest).map (fun f => f.id)).Nodup)
    (hpres : ∀ f ∈ item :: rest, findItem f.id st.files = some f) :
    ∀ f ∈ rest, findItem f.id (convertFile st item true env).files = some f := by
  intro f hf
  rw [convertFile_findItem_ne]
  · exact hpres f (List.mem_cons_of_mem _ hf)
  · intro hc
    exact head_id_not_mem_rest item rest hnd f hf (hc ▸ rfl)

theorem runSequential_go (jobs : List FileItem) (sched : List SeqStep)
    (st : ConverterState)
    (hpref : st.processingRef = true)
    (heng : st.sharedEngine.isSome = true)
    (hnostop : ∀ k, k < jobs.length → (sched.getD k defaultStep).stopBefore = false)
    (hnd : (jobs.map (fun f => f.id)).Nodup)
    (hpres : ∀ f ∈ jobs, findItem f.id st.files = some f) :
    ∀ k, k < jobs.length →
      findItem ((jobs.getD k blankItem).id) (runSequential st jobs sched).files
        = some (recResult ((sched.getD k defaultStep).env) (jobs.getD k blankItem)) := by
  induction jobs generalizing sched st with
  | nil =>
    intro k hk
    exact absurd hk (Nat.not_lt_zero k)
  | cons item rest ih =>
    intro k hk
    have hs0 : (sched.headD defaultStep).stopBefore = false := by
      rw [← getD_zero_eq_headD]
      exact hnostop 0 (Nat.succ_pos _)
    have hp : ¬ st.processingRef = false := by
      rw [hpref]
      exact fun hc => Bool.noConfusion hc
    simp only [runSequential, hs0, Bool.false_eq_true, if_false, if_neg hp]
    have hfacts := convertFile_step_facts st item (sched.headD defaultStep).env hpref heng
    have hpres2 := findItem_pres_rest st item (sched.headD defaultStep).env rest hnd hpres
    cases k with
    | zero =>
      rcases Option.isSome_iff_exists.mp heng with ⟨eng, heq⟩
      have hframe := runSequential_findItem_frame rest sched.tail
        (convertFile st item true (sched.headD defaultStep).env) item.id
        (head_id_not_mem_rest item rest hnd)
      rw [List.getD_cons_zero, hframe,
        convertFile_findItem_eq st item (sched.headD defaultStep).env eng heq,
        hpres item (List.mem_cons_self item rest), getD_zero_eq_headD]
      rfl
    | succ k =>
      have hnd2 : (rest.map (fun f => f.id)).Nodup := by
        rw [List.map_cons, List.nodup_cons] at hnd
        exact hnd.2
      have hnostop2 : ∀ j, j < rest.length → (sched.tail.getD j defaultStep).stopBefore = false := by
        intro j hj
        rw [getD_tail_eq]
        exact hnostop (j + 1) (Nat.succ_lt_succ hj)
      have := ih sched.tail (convertFile st item true (sched.headD defaultStep).env)
        hfacts.1 hfacts.2 hnostop2 hnd2 hpres2 k (Nat.lt_of_succ_lt_succ hk)
      rw [List.getD_cons_succ, this, getD_tail_eq]

theorem runSequential_stopped (jobs : List FileItem) (sched : List SeqStep)
    (st : ConverterState) (i : ℕ)
    (hpref : st.processingRef = true)
    (heng : st.sharedEngine.isSome = true)
    (hstop : (sched.getD i defaultStep).stopBefore = true)
    (hnostop : ∀ k, k < i → (sched.getD k defaultStep).stopBefore = false)
    (hnd : (jobs.map (fun f => f.id)).Nodup)
    (hpres : ∀ f ∈ jobs, findItem f.id st.files = some f) :
    (∀ k, i ≤ k → k < jobs.length →
        findItem ((jobs.getD k blankItem).id) (runSequential st jobs sched).files
          = some (jobs.getD k blankItem))
    ∧ (∀ k, k < i → k < jobs.length →
        findItem ((jobs.getD k blankItem).id) (runSequential st jobs sched).files
          = some (recResult ((sched.getD k defaultStep).env) (jobs.getD k blankItem))) := by
  induction jobs generalizing sched st i with
  | nil =>
    constructor
    · intro k _ hk
      exact absurd hk (Nat.not_lt_zero k)
    · intro k _ hk
      exact absurd hk (Nat.not_lt_zero k)
  | cons item rest ih =>
    cases i with
    | zero =>
      have hs0 : (sched.headD defaultStep).stopBefore = true := by
        rw [← getD_zero_eq_headD]
        exact hstop
      have hp : (stopConversion st).processingRef = false := rfl
      simp only [runSequential, hs0, if_true, if_pos hp]
      constructor
      · intro k _ hk
        rw [stopConversion_files]
        exact hpres _ (getD_mem _ k blankItem hk)
      · intro k hk0 _
        exact absurd hk0 (Nat.not_lt_zero k)
    | succ i' =>
      have hs0 : (sched.headD defaultStep).stopBefore = false := by
        rw [← getD_zero_eq_headD]
        exact hnostop 0 (Nat.succ_pos _)
      have hp : ¬ st.processingRef = false := by
        rw [hpref]
        exact fun hc => Bool.noConfusion hc
      simp only [runSequential, hs0, Bool.false_eq_true, if_false, if_neg hp]
      have hfacts := convertFile_step_facts st item (sched.headD defaultStep).env hpref heng
      have hpres2 := findItem_pres_rest st item (sched.headD defaultStep).env rest hnd hpres
      have hnd2 : (rest.map (fun f => f.id)).Nodup := by
        rw [List.map_cons, List.nodup_cons] at hnd
        exact hnd.2
      have hstop2 : (sched.tail.getD i' defaultStep).stopBefore = true := by
        rw [getD_tail_eq]
        exact hstop
      have hnostop2 : ∀ k, k < i' → (sched.tail.getD k defaultStep).stopBefore = false := by
        intro k hk
        rw [getD_tail_eq]
        exact hnostop (k + 1) (Nat.succ_lt_succ hk)
      have hrec := ih sched.tail (convertFile st item true (sched.headD defaultStep).env) i'
        hfacts.1 hfacts.2 hstop2 hnostop2 hnd2 hpres2
      constructor
      · intro k hik hk
        cases k with
        | zero => exact absurd hik (by omega)
        | succ k =>
          rw [List.getD_cons_succ]
          exact hrec.1 k (Nat.le_of_succ_le_succ hik) (Nat.lt_of_succ_lt_succ hk)
      · intro k hki hk
        cases k with
        | zero =>
          rcases Option.isSome_iff_exists.mp heng with ⟨eng, heq⟩
          have hframe := runSequential_findItem_frame rest sched.tail
            (convertFile st item true (sched.headD defaultStep).env) item.id
            (head_id_not_mem_rest item rest hnd)
          rw [List.getD_cons_zero, hframe,
            convertFile_findItem_eq st item (sched.headD defaultStep).env eng heq,
            hpres item (List.mem_cons_self item rest), getD_zero_eq_headD]
          rfl
        | succ k =>
          rw [List.getD_cons_succ, ← getD_tail_eq]
          exact hrec.2 k (Nat.lt_of_succ_lt_succ hki) (Nat.lt_of_succ_lt_succ hk)

theorem runParallel_go (jobs : List FileItem) (envs : List JobEnv)
    (st : ConverterState)
    (hnd : (jobs.map (fun f => f.id)).Nodup)
    (hpres : ∀ f ∈ jobs, findItem f.id st.files = some f) :
    ∀ k, k < jobs.length →
      findItem ((jobs.getD k blankItem).id) (runParallel st jobs envs).files
        = some (recResult (envs.getD k defaultEnv) (jobs.getD k blankItem)) := by
  induction jobs generalizing envs st with
  | nil =>
    intro k hk
    exact absurd hk (Nat.not_lt_zero k)
  | cons item rest ih =>
    intro k hk
    simp only [runParallel]
    have hpres2 : ∀ f ∈ rest,
        findItem f.id (convertFile st item false (envs.headD defaultEnv)).files = some f := by
      intro f hf
      rw [convertFile_findItem_ne]
      · exact hpres f (List.mem_cons_of_mem _ hf)
      · intro hc
        exact head_id_not_mem_rest item rest hnd f hf (hc ▸ rfl)
    have hnd2 : (rest.map (fun f => f.id)).Nodup := by
      rw [List.map_cons, List.nodup_cons] at hnd
      exact hnd.2
    cases k with
    | zero =>
      have hframe := runParallel_findItem_frame rest envs.tail
        (convertFile st item false (envs.headD defaultEnv)) item.id
        (head_id_not_mem_rest item rest hnd)
      rw [List.getD_cons_zero, hframe, convertFile_par_findItem_eq st item (envs.headD defaultEnv),
        hpres item (List.mem_cons_self item rest), getD_zero_eq_headD]
      rfl
    | succ k =>
      have := ih envs.tail (convertFile st item false (envs.headD defaultEnv))
        hnd2 hpres2 k (Nat.lt_of_succ_lt_succ hk)
      rw [List.getD_cons_succ, this, getD_tail_eq]

/-! ## Status and progress lemmas -/

theorem ratioProgress_ne_100 (dur : Option ℚ) (v : List Char) :
    ¬ ratioProgress dur v = some 100 := by
  unfold ratioProgress
  cases h : jsRoundN (jsMulN (jsDivN (parseIntL v) (jsMulN dur (some 1000000))) (some 100)) with
  | none => simp [jsMin99]
  | some q =>
    simp only [jsMin99]
    intro hc
    have hq : min 99 q = 100 := Option.some_injective _ hc
    have h99 : min 99 q ≤ 99 := min_le_left _ _
    rw [hq] at h99
    norm_num at h99

theorem handlerRec_progress_100 (dur : Option ℚ) (msg : String) (f : FileItem)
    (h : (handlerRec dur msg f).progress = some 100) : f.progress = some 100 := by
  unfold handlerRec at h
  dsimp only at h
  by_cases h1 : (splitOnEq msg.data).headD [] = keyOutTime ∧ durationTruthy dur = true
  · rw [if_pos h1] at h
    by_cases h2 : (splitOnEq msg.data).headD [] = keySize
    · rw [if_pos h2] at h
      exact absurd h (ratioProgress_ne_100 _ _)
    · rw [if_neg h2] at h
      exact absurd h (ratioProgress_ne_100 _ _)
  · rw [if_neg h1] at h
    by_cases h2 : (splitOnEq msg.data).headD [] = keySize
    · rw [if_pos h2] at h
      exact h
    · rw [if_neg h2] at h
      exact h

theorem handlerRec_progress_untruthy (dur : Option ℚ) (msg : String) (f : FileItem)
    (hdur : durationTruthy dur = false) :
    (handlerRec dur msg f).progress = f.progress := by
  unfold handlerRec
  dsimp only
  have h1 : ¬ ((splitOnEq msg.data).headD [] = keyOutTime ∧ durationTruthy dur = true) :=
    fun hc => by rw [hdur] at hc; exact Bool.noConfusion hc.2
  rw [if_neg h1]
  by_cases h2 : (splitOnEq msg.data).headD [] = keySize
  · rw [if_pos h2]
    rfl
  · rw [if_neg h2]

theorem foldl_handlerRec_progress_100 (dur : Option ℚ) (msgs : List String) (f : FileItem)
    (h : (msgs.foldl (fun f m => handlerRec dur m f) f).progress = some 100) :
    f.progress = some 100 := by
  induction msgs generalizing f with
  | nil => exact h
  | cons m ms ih =>
    rw [List.foldl_cons] at h
    exact handlerRec_progress_100 dur m f (ih (handlerRec dur m f) h)

theorem foldl_handlerRec_progress_untruthy (dur : Option ℚ) (msgs : List String) (f : FileItem)
    (hdur : durationTruthy dur = false) :
    (msgs.foldl (fun f m => handlerRec dur m f) f).progress = f.progress := by
  induction msgs generalizing f with
  | nil => rfl
  | cons m ms ih =>
    rw [List.foldl_cons, ih (handlerRec dur m f), handlerRec_progress_untruthy dur m f hdur]

theorem recResult_status_terminal (env : JobEnv) (f : FileItem) :
    (recResult env f).status = Status.completed ∨ (recResult env f).status = Status.error := by
  rcases env with ⟨rp, md, wr, xm, xr, rr, url, el⟩
  cases rp with
  | error e => exact Or.inr rfl
  | ok pd =>
    cases md with
    | error e => exact Or.inr rfl
    | ok d =>
      cases wr with
      | error e => exact Or.inr rfl
      | ok u =>
        cases xr with
        | error e => exact Or.inr rfl
        | ok u2 =>
          cases rr with
          | error e => exact Or.inr rfl
          | ok dat => exact Or.inl rfl

theorem recResult_progress_100 (env : JobEnv) (f : FileItem)
    (h : (recResult env f).progress = some 100) :
    (recResult env f).status = Status.completed := by
  rcases env with ⟨rp, md, wr, xm, xr, rr, url, el⟩
  cases rp with
  | error e =>
    have : (some (0 : ℚ) : Option ℚ) = some 100 := h
    exact absurd (Option.some_injective _ this) (by norm_num)
  | ok pd =>
    cases md with
    | error e =>
      have : (some (0 : ℚ) : Option ℚ) = some 100 := h
      exact absurd (Option.some_injective _ this) (by norm_num)
    | ok d =>
      cases wr with
      | error e =>
        have : (some (0 : ℚ) : Option ℚ) = some 100 := h
        exact absurd (Option.some_injective _ this) (by norm_num)
      | ok u =>
        cases xr with
        | error e =>
          have h2 := foldl_handlerRec_progress_100 d xm _ h
          have : (some (0 : ℚ) : Option ℚ) = some 100 := h2
          exact absurd (Option.some_injective _ this) (by norm_num)
        | ok u2 =>
          cases rr with
          | error e =>
            have h2 := foldl_handlerRec_progress_100 d xm _ h
            have : (some (0 : ℚ) : Option ℚ) = some 100 := h2
            exact absurd (Option.some_injective _ this) (by norm_num)
          | ok dat => rfl

theorem recResult_status_ok (env : JobEnv) (f : FileItem) (bs out : List ℕ)
    (dur : Option ℚ)
    (h1 : env.readPayload = .ok bs) (h2 : env.writeResult = .ok ())
    (h3 : env.execResult = .ok ()) (h4 : env.readResult = .ok out)
    (hd : env.metaDuration = .ok dur) :
    (recResult env f).status = Status.completed := by
  rcases env with ⟨rp, md, wr, xm, xr, rr, url, el⟩
  dsimp only at h1 h2 h3 h4 hd
  subst h1 h2 h3 h4 hd
  rfl

theorem onMessageCallback_progress_100 (jid : String) (dur : Option ℚ) (msg : String)
    (files : List FileItem) (k : ℕ)
    (h : ((onMessageCallback jid dur msg files).getD k blankItem).progress = some 100) :
    (files.getD k blankItem).progress = some 100 := by
  rw [onMessageCallback_eq_mapOn, mapOn_getD] at h
  by_cases hc : (files.getD k blankItem).id = jid ∧ k < files.length
  · rw [if_pos hc] at h
    exact handlerRec_progress_100 dur msg _ h
  · rw [if_neg hc] at h
    exact h

theorem onMessageCallback_progress_untruthy (jid : String) (dur : Option ℚ) (msg : String)
    (files : List FileItem) (k : ℕ) (hdur : durationTruthy dur = false) :
    ((onMessageCallback jid dur msg files).getD k blankItem).progress
      = (files.getD k blankItem).progress := by
  rw [onMessageCallback_eq_mapOn, mapOn_getD]
  by_cases hc : (files.getD k blankItem).id = jid ∧ k < files.length
  · rw [if_pos hc]
    exact handlerRec_progress_untruthy dur msg _ hdur
  · rw [if_neg hc]

theorem convertFile_progress_100 (st : ConverterState) (item : FileItem) (useShared : Bool)
    (env : JobEnv) (k : ℕ)
    (h : (((convertFile st item useShared env).files.getD k blankItem)).progress = some 100) :
    ((st.files.getD k blankItem)).progress = some 100
      ∨ ((convertFile st item useShared env).files.getD k blankItem).status
          = Status.completed := by
  cases useShared with
  | true =>
    cases he : st.sharedEngine with
    | none =>
      rw [convertFile_none_eq st item env he] at h
      exact Or.inl h
    | some eng =>
      rw [convertFile_files_eq st item env eng he] at h ⊢
      rw [mapOn_getD] at h ⊢
      by_cases hc : (st.files.getD k blankItem).id = item.id ∧ k < st.files.length
      · rw [if_pos hc] at h ⊢
        exact Or.inr (recResult_progress_100 env _ h)
      · rw [if_neg hc] at h
        exact Or.inl h
  | false =>
    rw [convertFile_par_files_eq st item env] at h ⊢
    rw [mapOn_getD] at h ⊢
    by_cases hc : (st.files.getD k blankItem).id = item.id ∧ k < st.files.length
    · rw [if_pos hc] at h ⊢
      exact Or.inr (recResult_progress_100 env _ h)
    · rw [if_neg hc] at h
      exact Or.inl h

/-! ## Snapshot and start lemmas -/

theorem pendingOf_status (st : ConverterState) (k : ℕ) (hk : k < (pendingOf st).length) :
    ((pendingOf st).getD k blankItem).status = Status.pending := by
  have hmem := getD_mem (pendingOf st) k blankItem hk
  unfold pendingOf at hmem
  have := List.of_mem_filter hmem
  exact of_decide_eq_true this

theorem pendingOf_nodup (st : ConverterState)
    (hnd : (st.files.map (fun f => f.id)).Nodup) :
    ((pendingOf st).map (fun f => f.id)).Nodup := by
  exact hnd.sublist (List.Sublist.map _ (List.filter_sublist _))

theorem pendingOf_pres (st : ConverterState)
    (hnd : (st.files.map (fun f => f.id)).Nodup) :
    ∀ f ∈ pendingOf st, findItem f.id st.files = some f := by
  intro f hf
  exact findItem_of_nodup st.files hnd f (List.mem_of_mem_filter hf)

theorem startConversion_seq_files (st : ConverterState) (sched : List SeqStep)
    (h : ¬ st.processingRef = true) :
    (startConversion st ProcessingMode.sequential sched).files
      = (runSequential { st with processingRef := true, isProcessing := true }
          (pendingOf st) sched).files := by
  unfold startConversion
  rw [if_neg h]
  rfl

theorem startConversion_par_files (st : ConverterState) (sched : List SeqStep)
    (h : ¬ st.processingRef = true) :
    (startConversion st ProcessingMode.parallel sched).files
      = (runParallel { st with processingRef := true, isProcessing := true }
          (pendingOf st) (sched.map SeqStep.env)).files := by
  unfold startConversion
  rw [if_neg h]
  rfl

/-! ## Identifier-generation lemmas -/

theorem decDigitChar_isDigit : ∀ n < 10, (decDigitChar n).isDigit = true := by decide

theorem decDigitChar_toNat : ∀ n < 10, (decDigitChar n).toNat - 48 = n := by decide

theorem digitsToNat_append_one (l : List Char) (c : Char) :
    digitsToNat (l ++ [c]) = digitsToNat l * 10 + (c.toNat - 48) := by
  unfold digitsToNat
  rw [List.foldl_append]
  rfl

theorem natToDecAux_spec (fuel : ℕ) :
    ∀ (n : ℕ) (acc : List Char), n < 10 ^ (fuel + 1) →
      ∃ pre : List Char, natToDecAux (fuel + 1) n acc = pre ++ acc ∧ ¬ pre = []
        ∧ (∀ c ∈ pre, c.isDigit = true) ∧ digitsToNat pre = n := by
  induction fuel with
  | zero =>
    intro n acc h
    have hn : n < 10 := by simpa using h
    refine ⟨[decDigitChar (n % 10)], ?_, ?_, ?_, ?_⟩
    · simp [natToDecAux, hn]
    · simp
    · intro c hc
      rw [List.mem_singleton] at hc
      subst hc
      exact decDigitChar_isDigit (n % 10) (Nat.mod_lt n (by norm_num))
    · show 0 * 10 + ((decDigitChar (n % 10)).toNat - 48) = n
      rw [decDigitChar_toNat (n % 10) (Nat.mod_lt n (by norm_num))]
      rw [Nat.zero_mul, Nat.zero_add, Nat.mod_eq_of_lt hn]
  | succ fuel ih =>
    intro n acc h
    by_cases hn : n < 10
    · refine ⟨[decDigitChar (n % 10)], ?_, ?_, ?_, ?_⟩
      · simp [natToDecAux, hn]
      · simp
      · intro c hc
        rw [List.mem_singleton] at hc
        subst hc
        exact decDigitChar_isDigit (n % 10) (Nat.mod_lt n (by norm_num))
      · show 0 * 10 + ((decDigitChar (n % 10)).toNat - 48) = n
        rw [decDigitChar_toNat (n % 10) (Nat.mod_lt n (by norm_num))]
        rw [Nat.zero_mul, Nat.zero_add, Nat.mod_eq_of_lt hn]
    · have hdiv : n / 10 < 10 ^ (fuel + 1) := by
        rw [Nat.div_lt_iff_lt_mul (by norm_num : (0:ℕ) < 10)]
        calc n < 10 ^ (fuel + 1 + 1) := h
          _ = 10 ^ (fuel + 1) * 10 := by rw [pow_succ]
      obtain ⟨pre, hpre, hne, hdig, hval⟩ := ih (n / 10) (decDigitChar (n % 10) :: acc) hdiv
      refine ⟨pre ++ [decDigitChar (n % 10)], ?_, ?_, ?_, ?_⟩
      · show natToDecAux (fuel + 1 + 1) n acc = pre ++ [decDigitChar (n % 10)] ++ acc
        have hstep : natToDecAux (fuel + 1 + 1) n acc
            = natToDecAux (fuel + 1) (n / 10) (decDigitChar (n % 10) :: acc) := by
          simp [natToDecAux, hn]
        rw [hstep, hpre, List.append_assoc]
        rfl
      · simp
      · intro c hc
        rcases List.mem_append.mp hc with hcp | hcs
        · exact hdig c hcp
        · rw [List.mem_singleton] at hcs
          subst hcs
          exact decDigitChar_isDigit (n % 10) (Nat.mod_lt n (by omega))
      · rw [digitsToNat_append_one, hval,
          decDigitChar_toNat (n % 10) (Nat.mod_lt n (by omega))]
        omega

theorem natToDec_spec (n : ℕ) :
    (¬ natToDec n = []) ∧ (∀ c ∈ natToDec n, c.isDigit = true)
      ∧ digitsToNat (natToDec n) = n := by
  have hlt : n < 10 ^ (n + 1) := by
    calc n < 10 ^ n := Nat.lt_pow_self (by norm_num) n
      _ ≤ 10 ^ (n + 1) := Nat.pow_le_pow_right (by norm_num) (Nat.le_succ n)
  obtain ⟨pre, hpre, hne, hdig, hval⟩ := natToDecAux_spec n n [] hlt
  have heq : natToDec n = pre := by
    rw [natToDec, hpre, List.append_nil]
  rw [heq]
  exact ⟨hne, hdig, hval⟩

theorem natToDec_inj (m n : ℕ) (h : natToDec m = natToDec n) : m = n := by
  have hm := (natToDec_spec m).2.2
  have hn := (natToDec_spec n).2.2
  rw [← hm, ← hn, h]

theorem natToDec_no_dash (n : ℕ) : '-' ∉ natToDec n := by
  intro hc
  have := (natToDec_spec n).2.1 '-' hc
  exact absurd this (by decide)

theorem append_sep_inj (l1 l2 r1 r2 : List Char) (h1 : '-' ∉ l1) (h2 : '-' ∉ l2)
    (h : l1 ++ '-' :: r1 = l2 ++ '-' :: r2) : l1 = l2 ∧ r1 = r2 := by
  induction l1 generalizing l2 with
  | nil =>
    cases l2 with
    | nil =>
      rw [List.nil_append, List.nil_append] at h
      exact ⟨rfl, List.tail_eq_of_cons_eq h⟩
    | cons b t =>
      rw [List.nil_append, List.cons_append] at h
      have hb : '-' = b := List.head_eq_of_cons_eq h
      exact absurd (hb ▸ List.mem_cons_self b t) h2
  | cons a s ih =>
    cases l2 with
    | nil =>
      rw [List.nil_append, List.cons_append] at h
      have ha : a = '-' := List.head_eq_of_cons_eq h
      exact absurd (ha ▸ List.mem_cons_self a s) h1
    | cons b t =>
      rw [List.cons_append, List.cons_append] at h
      have hab : a = b := List.head_eq_of_cons_eq h
      have hrest := List.tail_eq_of_cons_eq h
      have := ih t (fun hc => h1 (List.mem_cons_of_mem a hc))
        (fun hc => h2 (List.mem_cons_of_mem b hc)) hrest
      exact ⟨by rw [hab, this.1], this.2⟩

theorem generateId_inj (t1 t2 : ℕ) (r1 r2 : String)
    (h1 : '-' ∉ r1.data) (h2 : '-' ∉ r2.data)
    (h : generateId t1 r1 = generateId t2 r2) : t1 = t2 ∧ r1 = r2 := by
  unfold generateId at h
  have hd := congrArg String.data h
  rw [String.data_append, String.data_append, String.data_append, String.data_append] at hd
  have hd2 : natToDec t1 ++ '-' :: r1.data = natToDec t2 ++ '-' :: r2.data := by
    simpa [List.append_assoc] using hd
  obtain ⟨hl, hr⟩ := append_sep_inj _ _ _ _ (natToDec_no_dash t1) (natToDec_no_dash t2) hd2
  refine ⟨natToDec_inj t1 t2 hl, ?_⟩
  cases r1
  cases r2
  exact congrArg String.mk hr

/-! ## Message-splitting lemmas -/

theorem splitOnEq_cons (c : Char) (t : List Char) :
    splitOnEq (c :: t)
      = if c = '=' then [] :: splitOnEq t
        else
          match splitOnEq t with
          | [] => [[c]]
          | l :: ls => (c :: l) :: ls := rfl

theorem splitOnEq_no_sep (l : List Char) (h : '=' ∉ l) : splitOnEq l = [l] := by
  induction l with
  | nil => rfl
  | cons c t ih =>
    have hc : ¬ c = '=' := fun hc => h (hc ▸ List.mem_cons_self c t)
    have ht : '=' ∉ t := fun hm => h (List.mem_cons_of_mem c hm)
    rw [splitOnEq_cons, if_neg hc, ih ht]

theorem splitOnEq_append (l1 l2 : List Char) (h : '=' ∉ l1) :
    splitOnEq (l1 ++ '=' :: l2) = l1 :: splitOnEq l2 := by
  induction l1 with
  | nil =>
    rw [List.nil_append, splitOnEq_cons, if_pos rfl]
  | cons c s ih =>
    have hc : ¬ c = '=' := fun hc => h (hc ▸ List.mem_cons_self c s)
    have hs : '=' ∉ s := fun hm => h (List.mem_cons_of_mem c hm)
    rw [List.cons_append, splitOnEq_cons, if_neg hc, ih hs]

theorem ratioProgress_formula (d : ℚ) (v : List Char) (n : ℚ)
    (hd : ¬ d = 0) (hv : parseIntL v = some n) :
    ratioProgress (some d) v
      = some (min 99 ((jsRound (n / (d * 1000000) * 100) : ℤ) : ℚ)) := by
  unfold ratioProgress
  rw [hv]
  have hm : jsMulN (some d) (some 1000000) = some (d * 1000000) := rfl
  rw [hm]
  have hdz : ¬ d * 1000000 = 0 := mul_ne_zero hd (by norm_num)
  have hdiv : jsDivN (some n) (some (d * 1000000)) = some (n / (d * 1000000)) := by
    show (if d * 1000000 = 0 then none else some (n / (d * 1000000))) = some (n / (d * 1000000))
    rw [if_neg hdz]
  rw [hdiv]
  rfl

/-! ## Store-lifetime lemmas -/

theorem idsCreated_add (batch : List (IdDraw × JSFile)) (rest : List StoreOp) :
    idsCreated (StoreOp.add batch :: rest)
      = (batch.map Prod.fst).map (fun d => generateId d.now d.rand) ++ idsCreated rest := by
  unfold idsCreated drawsOf
  rw [List.foldr_cons, List.map_append]

theorem idsCreated_remove (jid : String) (rest : List StoreOp) :
    idsCreated (StoreOp.remove jid :: rest) = idsCreated rest := rfl

theorem runOps_mem (ops : List StoreOp) : ∀ (init : List FileItem) (f : FileItem),
    f ∈ runOps ops init → f.id ∈ idsCreated ops ∨ f ∈ init := by
  induction ops with
  | nil =>
    intro init f h
    exact Or.inr h
  | cons op rest ih =>
    intro init f h
    rcases ih (applyOp init op) f h with hid | hmem
    · left
      cases op with
      | add batch =>
        rw [idsCreated_add]
        exact List.mem_append_right _ hid
      | remove jid =>
        rw [idsCreated_remove]
        exact hid
    · cases op with
      | add batch =>
        rcases List.mem_append.mp hmem with hi | hb
        · exact Or.inr hi
        · left
          rw [idsCreated_add]
          apply List.mem_append_left
          rcases List.mem_map.mp hb with ⟨p, hp, hfp⟩
          exact List.mem_map.mpr ⟨p.1, List.mem_map_of_mem Prod.fst hp, by rw [← hfp]; rfl⟩
      | remove jid =>
        exact Or.inr (List.mem_of_mem_filter hmem)

/-! ## Claims -/

/-- Claim C10: every update issued through `updateFile` targets exactly the
record whose id matches: records with a different id are unchanged
position by position, an update whose id is absent from the store leaves
the store entirely unchanged, and no update ever creates a record. -/
theorem claim_C10 :
    (∀ (jid : String) (u : FileUpdates) (files : List FileItem) (k : ℕ),
        k < files.length → ¬ (files.getD k blankItem).id = jid →
        (updateFile jid u files).getD k blankItem = files.getD k blankItem)
    ∧ (∀ (jid : String) (u : FileUpdates) (files : List FileItem),
        (∀ f ∈ files, ¬ f.id = jid) → updateFile jid u files = files)
    ∧ (∀ (jid : String) (u : FileUpdates) (files : List FileItem),
        (updateFile jid u files).length = files.length) := by
  refine ⟨?_, ?_, ?_⟩
  · intro jid u files k hk hne
    rw [updateFile_eq_mapOn, mapOn_getD, if_neg (fun hc => hne hc.1)]
  · intro jid u files h
    rw [updateFile_eq_mapOn, mapOn_of_forall_ne _ _ _ h]
  · intro jid u files
    rw [updateFile_eq_mapOn, mapOn_length]

/-- Witness for C10 at concrete inputs. -/
theorem claim_C10_witness :
    (updateFile "idB" (progressUpd (some 5)) [recA, recB]).getD 0 blankItem = recA
    ∧ updateFile "zzz" (progressUpd (some 5)) [recA, recB] = [recA, recB]
    ∧ (updateFile "idB" (progressUpd (some 5)) [recA, recB]).length = [recA, recB].length :=
  ⟨claim_C10.1 "idB" (progressUpd (some 5)) [recA, recB] 0 (by decide) (by decide),
   claim_C10.2.1 "zzz" (progressUpd (some 5)) [recA, recB] (by decide),
   claim_C10.2.2 "idB" (progressUpd (some 5)) [recA, recB]⟩

/-- Claim C8: a missing shared-engine reference makes the per-job procedure
a silent no-op: the state, and hence the job record, is left completely
unchanged — no status change, no error message, no field update. -/
theorem claim_C8 : ∀ (st : ConverterState) (item : FileItem) (env : JobEnv),
    st.sharedEngine = none → convertFile st item true env = st :=
  fun st item env h => convertFile_none_eq st item env h

/-- Witness for C8 at concrete inputs. -/
theorem claim_C8_witness :
    convertFile
        { files := [recA], processingRef := false, isProcessing := false, sharedEngine := none }
        recA true defaultEnv
      = { files := [recA], processingRef := false, isProcessing := false, sharedEngine := none } :=
  claim_C8 _ recA defaultEnv rfl

/-- Claim C6 (amended): a `startConversion` call made while the busy flag
is still set — that is, while a batch is running and `stopConversion` has
not been called — is a complete no-op.  (After `stopConversion`, the flag
is cleared and a new batch may start even while a job of the old batch is
still in flight; see the counterexample.) -/
theorem claim_C6 : ∀ (st : ConverterState) (mode : ProcessingMode) (sched : List SeqStep),
    st.processingRef = true → startConversion st mode sched = st := by
  intro st mode sched h
  unfold startConversion
  rw [if_pos h]

/-- Witness for C6 at concrete inputs. -/
theorem claim_C6_witness :
    startConversion { stABC with processingRef := true } ProcessingMode.sequential []
      = { stABC with processingRef := true } :=
  claim_C6 { stABC with processingRef := true } ProcessingMode.sequential [] rfl

/-- Counterexample to C6 as stated: in `stMidStop` the earlier batch's job
`recA` is still in flight (status converting, its procedure suspended) and
`stopConversion` has cleared the busy flag; a `startConversion` call in
this state is not a no-op — it dispatches pending job `recB` and changes
its record to completed. -/
theorem claim_C6_cex :
    ¬ (startConversion stMidStop ProcessingMode.sequential
        [{ stopBefore := false, env := envDone }]).files = stMidStop.files
    ∧ (findItem "idB" (startConversion stMidStop ProcessingMode.sequential
        [{ stopBefore := false, env := envDone }]).files).map FileItem.status
        = some Status.completed
    ∧ (findItem "idA" stMidStop.files).map FileItem.status = some Status.converting := by
  refine ⟨by decide, by decide, by decide⟩

/-- Claim C2: events and updates arising from one job's conversion never
touch another job's record: a `convertFile` run for `item` leaves every
record with a different id untouched (in either engine mode), and a whole
sequential batch leaves every record untouched whose id is not among the
jobs it runs — in particular, once a job's procedure has exited, no event
of a later job's transcode call modifies it. -/
theorem claim_C2 :
    (∀ (st : ConverterState) (item : FileItem) (useShared : Bool) (env : JobEnv) (aid : String),
        ¬ aid = item.id →
        findItem aid (convertFile st item useShared env).files = findItem aid st.files)
    ∧ (∀ (st : ConverterState) (jobs : List FileItem) (sched : List SeqStep) (aid : String),
        (∀ f ∈ jobs, ¬ aid = f.id) →
        findItem aid (runSequential st jobs sched).files = findItem aid st.files) := by
  constructor
  · intro st item u env aid h
    exact convertFile_findItem_ne st item u env aid h
  · intro st jobs sched aid h
    exact runSequential_findItem_frame jobs sched st aid h

/-- Witness for C2 at concrete inputs. -/
theorem claim_C2_witness :
    findItem "idA" (convertFile { stABC with processingRef := true } recB true envDone).files
        = findItem "idA" { stABC with processingRef := true }.files
    ∧ findItem "idA" (runSequential { stABC with processingRef := true } [recB, recC]
        [{ stopBefore := false, env := envDone }]).files
        = findItem "idA" { stABC with processingRef := true }.files :=
  ⟨claim_C2.1 { stABC with processingRef := true } recB true envDone "idA" (by decide),
   claim_C2.2 { stABC with processingRef := true } [recB, recC]
     [{ stopBefore := false, env := envDone }] "idA" (by decide)⟩

/-- Claim C1: while a job is converting with a truthy probed duration `d`,
an `out_time_ms` event carrying the numeric value `n` sets exactly that
job's progress to `round(n / (d * 1000000) * 100)` clamped to an inclusive
maximum of 99; no event report can ever make a progress field equal to
100, and in a whole `convertFile` run a record whose progress becomes 100
has taken the terminal-success transition (status completed). -/
theorem claim_C1 :
    (∀ (jid : String) (d : ℚ) (v : String) (n : ℚ) (files : List FileItem),
        ¬ d = 0 → '=' ∉ v.data → parseIntL v.data = some n →
        onMessageCallback jid (some d) ("out_time_ms=" ++ v) files
          = updateFile jid
              (progressUpd (some (min 99 ((jsRound (n / (d * 1000000) * 100) : ℤ) : ℚ))))
              files)
    ∧ (∀ (jid : String) (dur : Option ℚ) (msg : String) (files : List FileItem) (k : ℕ),
        ((onMessageCallback jid dur msg files).getD k blankItem).progress = some 100 →
        (files.getD k blankItem).progress = some 100)
    ∧ (∀ (st : ConverterState) (item : FileItem) (useShared : Bool) (env : JobEnv) (k : ℕ),
        (((convertFile st item useShared env).files.getD k blankItem)).progress = some 100 →
        ((st.files.getD k blankItem)).progress = some 100
          ∨ ((convertFile st item useShared env).files.getD k blankItem).status
              = Status.completed) := by
  refine ⟨?_, ?_, ?_⟩
  · intro jid d v n files hd hv hp
    have hsplit : splitOnEq ("out_time_ms=" ++ v).data = [keyOutTime, v.data] := by
      have hdata : ("out_time_ms=" ++ v).data = keyOutTime ++ '=' :: v.data := by
        rw [String.data_append]
        rfl
      rw [hdata, splitOnEq_append _ _ (by decide), splitOnEq_no_sep _ hv]
    have hdt : durationTruthy (some d) = true := decide_eq_true hd
    simp only [onMessageCallback, hsplit, List.headD_cons, List.drop_succ_cons, List.drop_zero]
    rw [if_neg (by decide : ¬ keyOutTime = keySize), if_pos ⟨trivial, hdt⟩,
      ratioProgress_formula d v.data n hd hp]
  · intro jid dur msg files k h
    exact onMessageCallback_progress_100 jid dur msg files k h
  · intro st item useShared env k h
    exact convertFile_progress_100 st item useShared env k h

/-- Witness for C1 at concrete inputs. -/
theorem claim_C1_witness :
    (onMessageCallback "idA" (some 1) ("out_time_ms=" ++ "500000") [recA]
        = updateFile "idA"
            (progressUpd (some (min 99
              ((jsRound ((500000 : ℚ) / (1 * 1000000) * 100) : ℤ) : ℚ)))) [recA])
    ∧ ([{ recA with progress := some 100 }].getD 0 blankItem).progress = some 100
    ∧ ((stSoloA.files.getD 0 blankItem).progress = some 100
        ∨ ((convertFile stSoloA recA true envDone).files.getD 0 blankItem).status
            = Status.completed) :=
  ⟨claim_C1.1 "idA" 1 "500000" 500000 [recA] (by decide) (by decide) (by decide),
   claim_C1.2.1 "idA" none "total_size=7" [{ recA with progress := some 100 }] 0 (by decide),
   claim_C1.2.2 stSoloA recA true envDone 0 (by decide)⟩

/-- Claim C5 (amended): when the probe resolves without a usable duration,
the job does not fail because of it — the relay leaves every progress
field untouched (it computes no ratio) and the job still completes; a
probe call that throws, however, is caught like any other step failure and
marks the job failed (see the counterexample). -/
theorem claim_C5 :
    (∀ (jid : String) (dur : Option ℚ) (msg : String) (files : List FileItem) (k : ℕ),
        durationTruthy dur = false →
        ((onMessageCallback jid dur msg files).getD k blankItem).progress
          = (files.getD k blankItem).progress)
    ∧ (∀ (st : ConverterState) (item : FileItem) (env : JobEnv) (eng : Engine) (f : FileItem)
          (bs out : List ℕ),
        st.sharedEngine = some eng →
        env.readPayload = .ok bs → env.metaDuration = .ok none → env.writeResult = .ok () →
        env.execResult = .ok () → env.readResult = .ok out →
        findItem item.id st.files = some f →
        findItem item.id (convertFile st item true env).files = some (recResult env f)
          ∧ (recResult env f).status = Status.completed) := by
  constructor
  · intro jid dur msg files k hdur
    exact onMessageCallback_progress_untruthy jid dur msg files k hdur
  · intro st item env eng f bs out heng h1 hmd h2 h3 h4 hfind
    constructor
    · rw [convertFile_findItem_eq st item env eng heng, hfind]
      rfl
    · exact recResult_status_ok env f bs out none h1 h2 h3 h4 hmd

/-- Witness for C5 at concrete inputs. -/
theorem claim_C5_witness :
    ((onMessageCallback "idA" none "out_time_ms=500000" [recA]).getD 0 blankItem).progress
        = ([recA].getD 0 blankItem).progress
    ∧ (findItem recA.id (convertFile stSoloA recA true envNoDur).files
          = some (recResult envNoDur recA)
        ∧ (recResult envNoDur recA).status = Status.completed) :=
  ⟨claim_C5.1 "idA" none "out_time_ms=500000" [recA] 0 (by decide),
   claim_C5.2 stSoloA recA envNoDur { handler := none } recA [] [] rfl rfl rfl rfl rfl rfl
     (by decide)⟩

/-- Counterexample to C5 as stated: a probe call that throws does make the
job fail — with `envProbeThrow` the job ends `Failed` with the probe's
error message, refuting that a probing failure never fails the job. -/
theorem claim_C5_cex :
    (findItem "idA" (convertFile stSoloA recA true envProbeThrow).files).map FileItem.status
        = some Status.error
    ∧ (findItem "idA" (convertFile stSoloA recA true envProbeThrow).files).map FileItem.error
        = some (some "probe failed") :=
  ⟨by decide, by decide⟩

/-- Claim C7: when any step of the `try` block throws, the catch applies
exactly the failure update to the store as it was at the point of failure:
the resulting store is `updateFile` of the failure update on that store,
and the failure update changes only `status` (to failed) and the error
message, preserving id, payload, progress, output artifact, output size
and elapsed time of the record it hits. -/
theorem claim_C7 : ∀ (st : ConverterState) (item : FileItem) (useShared : Bool) (env : JobEnv)
    (eng : Engine) (e : JSError) (fsAt : List FileItem) (engAt : Engine),
    convertAttempt item useShared env (updateFile item.id convertingUpd st.files) eng
      = .error (e, fsAt, engAt) →
    (convertWith st item useShared env eng).1.files
        = updateFile item.id (failUpd (errMessage e)) fsAt
    ∧ (useShared = true → st.sharedEngine = some eng →
        (convertFile st item true env).files
          = updateFile item.id (failUpd (errMessage e)) fsAt)
    ∧ (∀ f : FileItem,
        (applyUpdates f (failUpd (errMessage e))).id = f.id
        ∧ (applyUpdates f (failUpd (errMessage e))).file = f.file
        ∧ (applyUpdates f (failUpd (errMessage e))).progress = f.progress
        ∧ (applyUpdates f (failUpd (errMessage e))).outputUrl = f.outputUrl
        ∧ (applyUpdates f (failUpd (errMessage e))).outputSize = f.outputSize
        ∧ (applyUpdates f (failUpd (errMessage e))).conversionTime = f.conversionTime
        ∧ (applyUpdates f (failUpd (errMessage e))).status = Status.error
        ∧ (applyUpdates f (failUpd (errMessage e))).error = some (errMessage e)) := by
  intro st item useShared env eng e fsAt engAt h
  have h1 : (convertWith st item useShared env eng).1.files
      = updateFile item.id (failUpd (errMessage e)) fsAt := by
    simp [convertWith, h]
  refine ⟨h1, ?_, ?_⟩
  · intro hu heng
    subst hu
    have h2 : (convertFile st item true env).files
        = (convertWith st item true env eng).1.files := by
      simp [convertFile, heng]
    rw [h2, h1]
  · intro f
    exact ⟨rfl, rfl, rfl, rfl, rfl, rfl, rfl, rfl⟩

/-- Witness for C7 at concrete inputs. -/
theorem claim_C7_witness :
    (convertWith stSoloA recA true envExecFail { handler := none }).1.files
        = updateFile recA.id (failUpd (errMessage (some "exec failed")))
            (updateFile recA.id convertingUpd stSoloA.files)
    ∧ (applyUpdates recB (failUpd (errMessage (some "exec failed")))).progress = recB.progress
    ∧ (applyUpdates recB (failUpd (errMessage (some "exec failed")))).status = Status.error := by
  have h := claim_C7 stSoloA recA true envExecFail { handler := none } (some "exec failed")
    (updateFile recA.id convertingUpd stSoloA.files)
    { handler := some { jobId := recA.id, duration := some 1 } } (by rfl)
  exact ⟨h.1, (h.2.2 recB).2.2.1, (h.2.2 recB).2.2.2.2.2.2.1⟩

/-- Claim C9 (amended): job identifiers are unique across the store's
lifetime provided the id generator never consumes the same
(timestamp, random-suffix) draw twice: with pairwise-distinct draws whose
suffixes are dash-free, all identifiers ever created are pairwise
distinct, and every record reachable in the store carries one of the
created identifiers.  (The generator itself does not rule out a repeated
draw; see the counterexample.) -/
theorem claim_C9 :
    (∀ ops : List StoreOp,
        (∀ d ∈ drawsOf ops, '-' ∉ d.rand.data) →
        (drawsOf ops).Nodup →
        (idsCreated ops).Nodup)
    ∧ (∀ (ops : List StoreOp) (f : FileItem),
        f ∈ runOps ops [] → f.id ∈ idsCreated ops) := by
  constructor
  · intro ops hdash hnd
    unfold idsCreated
    refine List.Nodup.map_on ?_ hnd
    intro x hx y hy hxy
    obtain ⟨h1, h2⟩ := generateId_inj x.now y.now x.rand y.rand (hdash x hx) (hdash y hy) hxy
    rcases x with ⟨xn, xr⟩
    rcases y with ⟨yn, yr⟩
    dsimp only at h1 h2
    rw [h1, h2]
  · intro ops f h
    rcases runOps_mem ops [] f h with hid | hmem
    · exact hid
    · cases hmem

/-- Witness for C9 at concrete inputs. -/
theorem claim_C9_witness :
    (idsCreated [StoreOp.add [({ now := 5, rand := "aa" }, { name := "a.mov", size := 1 })],
        StoreOp.remove (generateId 5 "aa"),
        StoreOp.add [({ now := 6, rand := "ab" }, { name := "a.mov", size := 1 })]]).Nodup
    ∧ (newFileItem { now := 5, rand := "aa" } { name := "a.mov", size := 1 }).id
        ∈ idsCreated [StoreOp.add [({ now := 5, rand := "aa" },
            { name := "a.mov", size := 1 })]] :=
  ⟨claim_C9.1 _ (by decide) (by decide),
   claim_C9.2 _ (newFileItem { now := 5, rand := "aa" } { name := "a.mov", size := 1 })
     (by decide)⟩

/-- Counterexample to C9 as stated: re-enqueuing a file after removal with
the same oracle draw (same timestamp, same random suffix) produces the
same identifier again — the identifiers ever created are not pairwise
distinct. -/
theorem claim_C9_cex :
    ¬ (idsCreated
        [StoreOp.add [({ now := 5, rand := "k1x" }, { name := "a.mov", size := 1 })],
         StoreOp.remove (generateId 5 "k1x"),
         StoreOp.add [({ now := 5, rand := "k1x" }, { name := "a.mov", size := 1 })]]).Nodup := by
  intro h
  have he : idsCreated
        [StoreOp.add [({ now := 5, rand := "k1x" }, { name := "a.mov", size := 1 })],
         StoreOp.remove (generateId 5 "k1x"),
         StoreOp.add [({ now := 5, rand := "k1x" }, { name := "a.mov", size := 1 })]]
      = [generateId 5 "k1x", generateId 5 "k1x"] := rfl
  rw [he, List.nodup_cons] at h
  exact h.1 (List.mem_singleton.mpr rfl)

/-- Claim C3: in a sequential batch the cancellation flag is checked
before each job: if the stop request lands before the job at snapshot
index `i` (and not earlier), every snapshot job from index `i` on keeps
its record exactly as it was — still pending — while every job before `i`,
including the one in flight when the stop was requested, still runs to its
own terminal state. -/
theorem claim_C3 : ∀ (st : ConverterState) (sched : List SeqStep) (i : ℕ),
    st.processingRef = false →
    st.sharedEngine.isSome = true →
    (st.files.map (fun f => f.id)).Nodup →
    (sched.getD i defaultStep).stopBefore = true →
    (∀ k, k < i → (sched.getD k defaultStep).stopBefore = false) →
    (∀ k, i ≤ k → k < (pendingOf st).length →
        findItem ((pendingOf st).getD k blankItem).id
            (startConversion st ProcessingMode.sequential sched).files
          = some ((pendingOf st).getD k blankItem)
        ∧ ((pendingOf st).getD k blankItem).status = Status.pending)
    ∧ (∀ k, k < i → k < (pendingOf st).length →
        findItem ((pendingOf st).getD k blankItem).id
            (startConversion st ProcessingMode.sequential sched).files
          = some (recResult ((sched.getD k defaultStep).env) ((pendingOf st).getD k blankItem))
        ∧ ((recResult ((sched.getD k defaultStep).env) ((pendingOf st).getD k blankItem)).status
              = Status.completed
            ∨ (recResult ((sched.getD k defaultStep).env)
                ((pendingOf st).getD k blankItem)).status = Status.error)) := by
  intro st sched i hpref heng hnd hstop hnostop
  have hne : ¬ st.processingRef = true := by
    rw [hpref]
    exact fun hc => Bool.noConfusion hc
  have hbridge := startConversion_seq_files st sched hne
  have hrun := runSequential_stopped (pendingOf st) sched
    { st with processingRef := true, isProcessing := true } i rfl heng hstop hnostop
    (pendingOf_nodup st hnd) (pendingOf_pres st hnd)
  constructor
  · intro k hik hk
    constructor
    · rw [hbridge]
      exact hrun.1 k hik hk
    · exact pendingOf_status st k hk
  · intro k hki hk
    constructor
    · rw [hbridge]
      exact hrun.2 k hki hk
    · exact recResult_status_terminal _ _

/-- Witness for C3 at concrete inputs: three pending jobs, stop requested
after the first job; jobs 2 and 3 stay pending and untouched, job 1
reaches a terminal state. -/
theorem claim_C3_witness :
    (findItem ((pendingOf stABC).getD 1 blankItem).id
        (startConversion stABC ProcessingMode.sequential
          [{ stopBefore := false, env := envDone },
           { stopBefore := true, env := defaultEnv }]).files
      = some ((pendingOf stABC).getD 1 blankItem)
      ∧ ((pendingOf stABC).getD 1 blankItem).status = Status.pending)
    ∧ (findItem ((pendingOf stABC).getD 0 blankItem).id
        (startConversion stABC ProcessingMode.sequential
          [{ stopBefore := false, env := envDone },
           { stopBefore := true, env := defaultEnv }]).files
      = some (recResult
          (([{ stopBefore := false, env := envDone },
              { stopBefore := true, env := defaultEnv }].getD 0 defaultStep).env)
          ((pendingOf stABC).getD 0 blankItem))
      ∧ (((recResult
          (([{ stopBefore := false, env := envDone },
              { stopBefore := true, env := defaultEnv }].getD 0 defaultStep).env)
          ((pendingOf stABC).getD 0 blankItem)).status = Status.completed)
        ∨ ((recResult
          (([{ stopBefore := false, env := envDone },
              { stopBefore := true, env := defaultEnv }].getD 0 defaultStep).env)
          ((pendingOf stABC).getD 0 blankItem)).status = Status.error))) :=
  ⟨(claim_C3 stABC
      [{ stopBefore := false, env := envDone }, { stopBefore := true, env := defaultEnv }]
      1 rfl rfl (by decide) (by decide) (by decide)).1 1 (by decide) (by decide),
   (claim_C3 stABC
      [{ stopBefore := false, env := envDone }, { stopBefore := true, env := defaultEnv }]
      1 rfl rfl (by decide) (by decide) (by decide)).2 0 (by decide) (by decide)⟩

/-- Claim C4: a failure inside one job's procedure is fully isolated: in a
sequential batch with no stop request every snapshot job — before and
after a failing one — still reaches the terminal state determined by its
own environment alone, and likewise in a parallel batch every sibling job
reaches its own terminal state. -/
theorem claim_C4 :
    (∀ (st : ConverterState) (sched : List SeqStep),
        st.processingRef = false → st.sharedEngine.isSome = true →
        (st.files.map (fun f => f.id)).Nodup →
        (∀ k, k < (pendingOf st).length → (sched.getD k defaultStep).stopBefore = false) →
        ∀ k, k < (pendingOf st).length →
          findItem ((pendingOf st).getD k blankItem).id
              (startConversion st ProcessingMode.sequential sched).files
            = some (recResult ((sched.getD k defaultStep).env)
                ((pendingOf st).getD k blankItem))
          ∧ ((recResult ((sched.getD k defaultStep).env)
                ((pendingOf st).getD k blankItem)).status = Status.completed
              ∨ (recResult ((sched.getD k defaultStep).env)
                  ((pendingOf st).getD k blankItem)).status = Status.error))
    ∧ (∀ (st : ConverterState) (sched : List SeqStep),
        st.processingRef = false →
        (st.files.map (fun f => f.id)).Nodup →
        ∀ k, k < (pendingOf st).length →
          findItem ((pendingOf st).getD k blankItem).id
              (startConversion st ProcessingMode.parallel sched).files
            = some (recResult ((sched.map SeqStep.env).getD k defaultEnv)
                ((pendingOf st).getD k blankItem))
          ∧ ((recResult ((sched.map SeqStep.env).getD k defaultEnv)
                ((pendingOf st).getD k blankItem)).status = Status.completed
              ∨ (recResult ((sched.map SeqStep.env).getD k defaultEnv)
                  ((pendingOf st).getD k blankItem)).status = Status.error)) := by
  constructor
  · intro st sched hpref heng hnd hnostop k hk
    have hne : ¬ st.processingRef = true := by
      rw [hpref]
      exact fun hc => Bool.noConfusion hc
    have hbridge := startConversion_seq_files st sched hne
    constructor
    · rw [hbridge]
      exact runSequential_go (pendingOf st) sched
        { st with processingRef := true, isProcessing := true } rfl heng hnostop
        (pendingOf_nodup st hnd) (pendingOf_pres st hnd) k hk
    · exact recResult_status_terminal _ _
  · intro st sched hpref hnd k hk
    have hne : ¬ st.processingRef = true := by
      rw [hpref]
      exact fun hc => Bool.noConfusion hc
    have hbridge := startConversion_par_files st sched hne
    constructor
    · rw [hbridge]
      exact runParallel_go (pendingOf st) (sched.map SeqStep.env)
        { st with processingRef := true, isProcessing := true }
        (pendingOf_nodup st hnd) (pendingOf_pres st hnd) k hk
    · exact recResult_status_terminal _ _

/-- Witness for C4 at concrete inputs: three pending jobs processed
sequentially with the middle job's transcode failing; the job after the
failure is still processed and reaches a terminal state, and the same
scenario runs in parallel mode. -/
theorem claim_C4_witness :
    (findItem ((pendingOf stABC).getD 2 blankItem).id
        (startConversion stABC ProcessingMode.sequential
          [{ stopBefore := false, env := envDone },
           { stopBefore := false, env := envExecFail },
           { stopBefore := false, env := envDone }]).files
      = some (recResult
          (([{ stopBefore := false, env := envDone },
              { stopBefore := false, env := envExecFail },
              { stopBefore := false, env := envDone }].getD 2 defaultStep).env)
          ((pendingOf stABC).getD 2 blankItem))
      ∧ (((recResult
            (([{ stopBefore := false, env := envDone },
                { stopBefore := false, env := envExecFail },
                { stopBefore := false, env := envDone }].getD 2 defaultStep).env)
            ((pendingOf stABC).getD 2 blankItem)).status = Status.completed)
          ∨ ((recResult
            (([{ stopBefore := false, env := envDone },
                { stopBefore := false, env := envExecFail },
                { stopBefore := false, env := envDone }].getD 2 defaultStep).env)
            ((pendingOf stABC).getD 2 blankItem)).status = Status.error)))
    ∧ (findItem ((pendingOf stABC).getD 0 blankItem).id
        (startConversion stABC ProcessingMode.parallel
          [{ stopBefore := false, env := envDone },
           { stopBefore := false, env := envExecFail }]).files
      = some (recResult
          (([{ stopBefore := false, env := envDone },
             { stopBefore := false, env := envExecFail }].map SeqStep.env).getD 0 defaultEnv)
          ((pendingOf stABC).getD 0 blankItem))
      ∧ (((recResult
            (([{ stopBefore := false, env := envDone },
               { stopBefore := false, env := envExecFail }].map SeqStep.env).getD 0 defaultEnv)
            ((pendingOf stABC).getD 0 blankItem)).status = Status.completed)
          ∨ ((recResult
            (([{ stopBefore := false, env := envDone },
               { stopBefore := false, env := envExecFail }].map SeqStep.env).getD 0 defaultEnv)
            ((pendingOf stABC).getD 0 blankItem)).status = Status.error))) :=
  ⟨claim_C4.1 stABC
      [{ stopBefore := false, env := envDone }, { stopBefore := false, env := envExecFail },
       { stopBefore := false, env := envDone }]
      rfl rfl (by decide) (by decide) 2 (by decide),
   claim_C4.2 stABC
      [{ stopBefore := false, env := envDone }, { stopBefore := false, env := envExecFail }]
      rfl (by decide) 0 (by decide)⟩
